import Mathlib

/-!
Verification development for the Monad MCP server (`src/index.ts`).

The file shallowly embeds the two engine components described in the spec:
the calldata builder of the `apriori-mon-stake` tool, and the block-walking
aggregators of `account-transaction-history` and `chain-statistics`, plus the
report shape of `transaction-details`.  JavaScript strings are modelled as
Lean `String`, JS `BigInt`/`number` integer values as `Nat`/`Int`, the RPC
client as a record of oracle functions (`Option`-valued where the source
wraps the call in try/catch), and thrown exceptions as the corresponding
`catch`-branch result.
-/

namespace MonadMcp

/-- Lowercase hexadecimal digit character for a value `d < 16`, as produced by
JavaScript `BigInt.prototype.toString(16)`. -/
def hexDigit (d : Nat) : Char :=
  if d < 10 then Char.ofNat (48 + d) else Char.ofNat (87 + d)

/-- Numeric value of a lowercase hexadecimal digit character. -/
def hexCharVal (c : Char) : Nat :=
  if c.toNat ≤ 57 then c.toNat - 48 else c.toNat - 87

/-- Fuel-indexed big-endian hex digit list of `n` (empty for `n = 0`);
the fuel only bounds recursion depth. -/
def toHexAux : Nat → Nat → List Char
  | 0, _ => []
  | fuel + 1, n =>
    if n = 0 then [] else toHexAux fuel (n / 16) ++ [hexDigit (n % 16)]

/-- JavaScript `v.toString(16)` for a non-negative BigInt `v`: minimal
lowercase big-endian hexadecimal, `"0"` for zero. -/
def toHex (n : Nat) : String :=
  if n = 0 then "0" else String.mk (toHexAux n n)

/-- JavaScript `v.toString(16)` for a BigInt of either sign: negative values
render as a minus sign followed by the hex digits of the absolute value. -/
def intHex (z : Int) : String :=
  if z < 0 then "-" ++ toHex z.natAbs else toHex z.toNat

/-- JavaScript `String.prototype.padStart(n, c)`: left-pad to length `n`
(no-op when the string is already at least `n` long). -/
def padStart (s : String) (n : Nat) (c : Char) : String :=
  String.mk (List.replicate (n - s.length) c) ++ s

/-- Big-endian numeric value of a hex string (left fold). -/
def hexToNat (s : String) : Nat :=
  s.data.foldl (fun a c => 16 * a + hexCharVal c) 0

/-- Numeric value of a decimal digit list (left fold). -/
def decVal (cs : List Char) : Nat :=
  cs.foldl (fun a c => 10 * a + (c.toNat - 48)) 0

/-- Modelled from the spec: the external unit-conversion collaborator
(`parseUnits(amount, 18)` of the RPC client library, §6), per its interface
contract: a decimal string is converted to an integer by exact scaling with
`10^18`; a non-numeric or over-precision (more than 18 fractional digits)
string is rejected (`InvalidAmount`, §4.1). -/
def parseUnits18 (s : String) : Option Nat :=
  let cs := s.data
  let intPart := cs.takeWhile (fun c => c ≠ '.')
  match cs.dropWhile (fun c => c ≠ '.') with
  | [] =>
    if intPart ≠ [] ∧ intPart.all Char.isDigit then
      some (decVal intPart * 10 ^ 18)
    else none
  | _ :: frac =>
    if intPart.all Char.isDigit ∧ frac ≠ [] ∧ frac.all Char.isDigit ∧ frac.length ≤ 18 then
      some (decVal intPart * 10 ^ 18 + decVal frac * 10 ^ (18 - frac.length))
    else none

/-- JavaScript `BigInt(string)` restricted to the decimal forms the tool can
receive: optional sign followed by digits; the empty string is zero; anything
else throws (modelled as `none`). -/
def bigIntParse (s : String) : Option Int :=
  match s.data with
  | [] => some 0
  | '-' :: rest =>
    if rest ≠ [] ∧ rest.all Char.isDigit then some (-(decVal rest : Int)) else none
  | '+' :: rest =>
    if rest ≠ [] ∧ rest.all Char.isDigit then some ((decVal rest : Int)) else none
  | cs =>
    if cs.all Char.isDigit then some ((decVal cs : Int)) else none

/-- The fixed Apriori staking contract address (`contractAddress` in the source). -/
def contractAddress : String := "0xb2f82D0f38dc453D596Ad40A37799446Cc89274A"

/-- The fixed `gasLimitStake` of the source. -/
def gasLimitStake : Nat := 500000

/-- The fixed `gasLimitUnstake` of the source. -/
def gasLimitUnstake : Nat := 800000

/-- The fixed `gasLimitClaim` of the source. -/
def gasLimitClaim : Nat := 800000

/-- The `operation` enum of the `apriori-mon-stake` tool. -/
inductive StakeOp where
  | deposit
  | unstake
  | redeem
deriving DecidableEq

/-- The lowercase operation name interpolated into error messages. -/
def opName : StakeOp → String
  | .deposit => "deposit"
  | .unstake => "unstake"
  | .redeem => "redeem"

/-- Result of one `apriori-mon-stake` invocation, cut at the transaction
submission boundary: `err` is an error text report returned to the caller;
`submit to data value gas` records that the handler reached
`walletClient.sendTransaction({to, data, value, gas})` with exactly these
arguments (submission itself is the external signing collaborator). -/
inductive StakeOutcome where
  | err (msg : String)
  | submit (toAddr : String) (data : String) (value : Nat) (gas : Nat)
deriving DecidableEq

/-- The calldata string of a `submit` outcome, if any. -/
def StakeOutcome.dataOf : StakeOutcome → Option String
  | .err _ => none
  | .submit _ d _ _ => some d

/-- The `apriori-mon-stake` tool handler (source lines 299-441).  `senderHex`
models `senderAccount.address.slice(2)`, the fixed 40-hex-character signer
address without its `0x` prefix.  JS falsiness of the optional parameters
(`!amount`, `!requestId`) is `none` or the empty string.  A throwing
`parseUnits`/`BigInt` conversion lands in the handler's catch block, which
produces the generic `Apriori <op> failed` report (the collaborator's message
text is appended in the source). -/
def aprioriStake (senderHex : String) (operation : StakeOp)
    (amount requestId : Option String) : StakeOutcome :=
  if (operation = .deposit ∨ operation = .unstake) ∧ (amount = none ∨ amount = some "") then
    .err ("Error: Amount is required for " ++ opName operation ++ " operation.")
  else if operation = .redeem ∧ (requestId = none ∨ requestId = some "") then
    .err "Error: Request ID is required for redeem operation."
  else
    match operation with
    | .deposit =>
      match parseUnits18 (amount.getD "") with
      | none => .err "Apriori deposit failed"
      | some v =>
        let depositAmountHex := padStart (toHex v) 64 '0'
        let depositAddressHex := padStart senderHex 64 '0'
        .submit contractAddress ("0x6e553f65" ++ depositAmountHex ++ depositAddressHex)
          v gasLimitStake
    | .unstake =>
      match parseUnits18 (amount.getD "") with
      | none => .err "Apriori unstake failed"
      | some v =>
        let unstakeAmountHex := padStart (toHex v) 64 '0'
        let unstakeAddressHex1 := padStart senderHex 64 '0'
        let unstakeAddressHex2 := padStart senderHex 64 '0'
        .submit contractAddress
          ("0x7d41c86e" ++ unstakeAmountHex ++ unstakeAddressHex1 ++ unstakeAddressHex2)
          0 gasLimitUnstake
    | .redeem =>
      match bigIntParse (requestId.getD "") with
      | none => .err "Apriori redeem failed"
      | some z =>
        let offsetHex := padStart "40" 64 '0'
        let addressHex := padStart senderHex 64 '0'
        let flagHex := padStart "01" 64 '0'
        let requestIdHex := padStart (intHex z) 64 '0'
        .submit contractAddress
          ("0x492e47d2" ++ offsetHex ++ addressHex ++ flagHex ++ requestIdHex)
          0 gasLimitClaim

/-- Decoding a lowercase hex digit returns the encoded value. -/
theorem hexCharVal_hexDigit (d : Nat) (hd : d < 16) : hexCharVal (hexDigit d) = d := by
  interval_cases d <;> decide

/-- Folding the hex-value step over an encoded digit list recovers the number. -/
theorem toHexAux_foldl (fuel : Nat) : ∀ n acc, n ≤ fuel →
    List.foldl (fun a c => 16 * a + hexCharVal c) acc (toHexAux fuel n) =
      acc * 16 ^ (toHexAux fuel n).length + n := by
  induction fuel with
  | zero =>
    intro n acc h
    interval_cases n
    simp [toHexAux]
  | succ f ih =>
    intro n acc h
    by_cases h0 : n = 0
    · subst h0; simp [toHexAux]
    · have hpos : 0 < n := Nat.pos_of_ne_zero h0
      have hdiv : n / 16 ≤ f := by
        have : n / 16 < n := Nat.div_lt_self hpos (by norm_num)
        omega
      simp only [toHexAux, if_neg h0, List.foldl_append, List.length_append,
        List.foldl_cons, List.foldl_nil, List.length_cons, List.length_nil]
      rw [ih (n / 16) acc hdiv]
      rw [hexCharVal_hexDigit (n % 16) (Nat.mod_lt _ (by norm_num))]
      have hm : 16 * (n / 16) + n % 16 = n := Nat.div_add_mod n 16
      calc 16 * (acc * 16 ^ (toHexAux f (n / 16)).length + n / 16) + n % 16
          = acc * (16 ^ (toHexAux f (n / 16)).length * 16) + (16 * (n / 16) + n % 16) := by
            ring
        _ = acc * 16 ^ ((toHexAux f (n / 16)).length + 1) + n := by
            rw [hm, pow_succ]

/-- An encoded digit list has at most `k` digits when the value is below `16^k`. -/
theorem toHexAux_length_le (fuel : Nat) : ∀ n k, n ≤ fuel → n < 16 ^ k →
    (toHexAux fuel n).length ≤ k := by
  induction fuel with
  | zero =>
    intro n k h _
    interval_cases n
    simp [toHexAux]
  | succ f ih =>
    intro n k h hk
    by_cases h0 : n = 0
    · subst h0; simp [toHexAux]
    · have hpos : 0 < n := Nat.pos_of_ne_zero h0
      have hk0 : k ≠ 0 := by
        intro hk0
        subst hk0
        simp at hk
        omega
      obtain ⟨k', rfl⟩ : ∃ k', k = k' + 1 := ⟨k - 1, by omega⟩
      have hdiv : n / 16 ≤ f := by
        have : n / 16 < n := Nat.div_lt_self hpos (by norm_num)
        omega
      have hlt : n / 16 < 16 ^ k' := by
        rw [Nat.div_lt_iff_lt_mul (by norm_num : 0 < 16)]
        calc n < 16 ^ (k' + 1) := hk
          _ = 16 ^ k' * 16 := by rw [pow_succ]
      simp only [toHexAux, if_neg h0, List.length_append, List.length_cons, List.length_nil]
      have := ih (n / 16) k' hdiv hlt
      omega

/-- An encoded digit list has more than `k` digits when the value is at least `16^k`. -/
theorem toHexAux_length_ge (fuel : Nat) : ∀ n k, n ≤ fuel → 16 ^ k ≤ n →
    k + 1 ≤ (toHexAux fuel n).length := by
  induction fuel with
  | zero =>
    intro n k h hk
    have : 0 < 16 ^ k := Nat.pos_pow_of_pos k (by norm_num)
    omega
  | succ f ih =>
    intro n k h hk
    have hpos : 0 < n := lt_of_lt_of_le (Nat.pos_pow_of_pos k (by norm_num)) hk
    have h0 : n ≠ 0 := Nat.pos_iff_ne_zero.mp hpos
    simp only [toHexAux, if_neg h0, List.length_append, List.length_cons, List.length_nil]
    cases k with
    | zero => omega
    | succ k' =>
      have hdiv : n / 16 ≤ f := by
        have : n / 16 < n := Nat.div_lt_self hpos (by norm_num)
        omega
      have hge : 16 ^ k' ≤ n / 16 := by
        rw [Nat.le_div_iff_mul_le (by norm_num : 0 < 16)]
        calc 16 ^ k' * 16 = 16 ^ (k' + 1) := (pow_succ 16 k').symm
          _ ≤ n := hk
      have := ih (n / 16) k' hdiv hge
      omega

/-- The `toHex` output length is at most 64 characters for values below `2^256`. -/
theorem toHex_length_le (n : Nat) (h : n < 2 ^ 256) : (toHex n).length ≤ 64 := by
  by_cases h0 : n = 0
  · subst h0; decide
  · have h16 : n < 16 ^ 64 := by
      calc n < 2 ^ 256 := h
        _ = 16 ^ 64 := by norm_num
    simpa [toHex, h0, String.length] using toHexAux_length_le n n 64 le_rfl h16

/-- The `toHex` output length exceeds 64 characters for values of 2^256 and above. -/
theorem toHex_length_gt (n : Nat) (h : 2 ^ 256 ≤ n) : 65 ≤ (toHex n).length := by
  have h0 : n ≠ 0 := by positivity
  have h16 : 16 ^ 64 ≤ n := by
    calc (16 : Nat) ^ 64 = 2 ^ 256 := by norm_num
      _ ≤ n := h
  simpa [toHex, h0, String.length] using toHexAux_length_ge n n 64 le_rfl h16

/-- Length of a left-padded string. -/
theorem padStart_length (s : String) (n : Nat) (c : Char) :
    (padStart s n c).length = max n s.length := by
  cases s with
  | mk data =>
    simp [padStart, String.length, String.append]
    omega

/-- Length of an appended string. -/
theorem str_length_append (s t : String) : (s ++ t).length = s.length + t.length := by
  cases s; cases t; simp [String.length, String.append]

/-- Folding the hex-value step over leading zero padding leaves zero alone. -/
theorem foldl_hex_replicate_zero (k : Nat) :
    List.foldl (fun a c => 16 * a + hexCharVal c) 0 (List.replicate k '0') = 0 := by
  induction k with
  | zero => rfl
  | succ m ih => simpa [List.replicate_succ, hexCharVal] using ih

/-- Round trip: the 64-character zero-padded hex word of `n` decodes back to `n`. -/
theorem hexToNat_padStart_toHex (n : Nat) :
    hexToNat (padStart (toHex n) 64 '0') = n := by
  by_cases h0 : n = 0
  · subst h0; decide
  · show List.foldl _ 0 (List.replicate (64 - (toHex n).length) '0' ++ (toHex n).data) = n
    rw [List.foldl_append, foldl_hex_replicate_zero]
    have : (toHex n).data = toHexAux n n := by simp [toHex, h0]
    rw [this]
    have := toHexAux_foldl n n 0 le_rfl
    simpa using this

/-- A 64-wide zero pad of a string of at most 64 characters is exactly 64 long. -/
theorem padStart64_length_of_le (s : String) (h : s.length ≤ 64) :
    (padStart s 64 '0').length = 64 := by
  rw [padStart_length]; omega

/-- String append is associative. -/
theorem str_append_assoc (s t u : String) : s ++ t ++ u = s ++ (t ++ u) := by
  obtain ⟨a⟩ := s
  obtain ⟨b⟩ := t
  obtain ⟨c⟩ := u
  show String.mk (a ++ b ++ c) = String.mk (a ++ (b ++ c))
  rw [List.append_assoc]

/-- The character data of an appended string. -/
theorem str_data_append (s t : String) : (s ++ t).data = s.data ++ t.data := by
  obtain ⟨a⟩ := s
  obtain ⟨b⟩ := t
  rfl

/-- The empty string is not a parseable amount. -/
theorem parseUnits18_empty : parseUnits18 "" = none := rfl

/-- A sample 40-hex-character signer address (the source's signer is a fixed
address of this shape, derived from the configured private key). -/
def sampleSender : String := "1111111111111111111111111111111111111111"

/-- The amount `10^60` MON as a decimal string: a present, numerically valid amount whose
scaled value `10^78` exceeds `2^256 - 1`. -/
def bigAmtStr : String := "1000000000000000000000000000000000000000000000000000000000000"

/-- The value `2 * 10^77` as a decimal string: a non-negative requestId exceeding 256 bits. -/
def bigRidStr : String :=
  "200000000000000000000000000000000000000000000000000000000000000000000000000000"

/-- Reduction of the deposit branch for a present, parseable amount. -/
theorem aprioriStake_deposit_eq (sender amt : String) (r : Option String) (v : Nat)
    (hamt : parseUnits18 amt = some v) :
    aprioriStake sender .deposit (some amt) r =
      .submit contractAddress
        ("0x6e553f65" ++ padStart (toHex v) 64 '0' ++ padStart sender 64 '0')
        v gasLimitStake := by
  have hne : amt ≠ "" := by
    rintro rfl
    rw [parseUnits18_empty] at hamt
    exact Option.noConfusion hamt
  have h1 : ¬ ((StakeOp.deposit = StakeOp.deposit ∨ StakeOp.deposit = StakeOp.unstake) ∧
      (some amt = none ∨ some amt = some "")) := by simp [hne]
  rw [aprioriStake, if_neg h1, if_neg (by simp)]
  show (match parseUnits18 amt with
    | none => StakeOutcome.err "Apriori deposit failed"
    | some v =>
      StakeOutcome.submit contractAddress
        ("0x6e553f65" ++ padStart (toHex v) 64 '0' ++ padStart sender 64 '0')
        v gasLimitStake) = _
  rw [hamt]

/-- Reduction of the unstake branch for a present, parseable amount. -/
theorem aprioriStake_unstake_eq (sender amt : String) (r : Option String) (v : Nat)
    (hamt : parseUnits18 amt = some v) :
    aprioriStake sender .unstake (some amt) r =
      .submit contractAddress
        ("0x7d41c86e" ++ padStart (toHex v) 64 '0' ++ padStart sender 64 '0' ++
          padStart sender 64 '0')
        0 gasLimitUnstake := by
  have hne : amt ≠ "" := by
    rintro rfl
    rw [parseUnits18_empty] at hamt
    exact Option.noConfusion hamt
  have h1 : ¬ ((StakeOp.unstake = StakeOp.deposit ∨ StakeOp.unstake = StakeOp.unstake) ∧
      (some amt = none ∨ some amt = some "")) := by simp [hne]
  rw [aprioriStake, if_neg h1, if_neg (by simp)]
  show (match parseUnits18 amt with
    | none => StakeOutcome.err "Apriori unstake failed"
    | some v =>
      StakeOutcome.submit contractAddress
        ("0x7d41c86e" ++ padStart (toHex v) 64 '0' ++ padStart sender 64 '0' ++
          padStart sender 64 '0')
        0 gasLimitUnstake) = _
  rw [hamt]

/-- Reduction of the redeem branch for a present, parseable requestId. -/
theorem aprioriStake_redeem_eq (sender rid : String) (a : Option String) (z : Int)
    (hrid : rid ≠ "") (hz : bigIntParse rid = some z) :
    aprioriStake sender .redeem a (some rid) =
      .submit contractAddress
        ("0x492e47d2" ++ padStart "40" 64 '0' ++ padStart sender 64 '0' ++
          padStart "01" 64 '0' ++ padStart (intHex z) 64 '0')
        0 gasLimitClaim := by
  have h2 : ¬ (StakeOp.redeem = StakeOp.redeem ∧
      (some rid = none ∨ some rid = some "")) := by simp [hrid]
  rw [aprioriStake, if_neg (by simp), if_neg h2]
  show (match bigIntParse rid with
    | none => StakeOutcome.err "Apriori redeem failed"
    | some z =>
      StakeOutcome.submit contractAddress
        ("0x492e47d2" ++ padStart "40" 64 '0' ++ padStart sender 64 '0' ++
          padStart "01" 64 '0' ++ padStart (intHex z) 64 '0')
        0 gasLimitClaim) = _
  rw [hz]

/-- C1 (amended): for every StakeOperation variant whose required parameter is
present and parses, and whose encoded quantities fit in one 32-byte word
(scaled amount below `2^256`; requestId non-negative and below `2^256` — the
fit that §3 of the spec requires callers to guarantee), the produced calldata
string starts with the operation's fixed 4-byte selector and its total length
is exactly `4 + 32 * wordCount` bytes (`2 + 2 * (4 + 32 * wordCount)` hex
string characters including the `0x` prefix), with wordCount 2 for deposit,
3 for unstake and 4 for redeem. -/
theorem stake_calldata_selector_and_length
    (sender amt rid : String) (v : Nat) (z : Int) (r a : Option String)
    (hs : sender.length = 40)
    (hamt : parseUnits18 amt = some v) (hv : v < 2 ^ 256)
    (hrid : rid ≠ "") (hz : bigIntParse rid = some z) (hz0 : 0 ≤ z)
    (hzn : z.toNat < 2 ^ 256) :
    (∃ w, aprioriStake sender .deposit (some amt) r =
        .submit contractAddress ("0x6e553f65" ++ w) v gasLimitStake ∧
        ("0x6e553f65" ++ w).length = 2 + 2 * (4 + 32 * 2)) ∧
    (∃ w, aprioriStake sender .unstake (some amt) r =
        .submit contractAddress ("0x7d41c86e" ++ w) 0 gasLimitUnstake ∧
        ("0x7d41c86e" ++ w).length = 2 + 2 * (4 + 32 * 3)) ∧
    (∃ w, aprioriStake sender .redeem a (some rid) =
        .submit contractAddress ("0x492e47d2" ++ w) 0 gasLimitClaim ∧
        ("0x492e47d2" ++ w).length = 2 + 2 * (4 + 32 * 4)) := by
  have hwa : (padStart (toHex v) 64 '0').length = 64 :=
    padStart64_length_of_le _ (toHex_length_le v hv)
  have hws : (padStart sender 64 '0').length = 64 :=
    padStart64_length_of_le _ (by omega)
  have hzhex : intHex z = toHex z.toNat := by
    rw [intHex, if_neg (not_lt.mpr hz0)]
  have hwz : (padStart (intHex z) 64 '0').length = 64 := by
    rw [hzhex]
    exact padStart64_length_of_le _ (toHex_length_le _ hzn)
  have hw40 : (padStart "40" 64 '0').length = 64 :=
    padStart64_length_of_le _ (by decide)
  have hw01 : (padStart "01" 64 '0').length = 64 :=
    padStart64_length_of_le _ (by decide)
  have h10a : ("0x6e553f65" : String).length = 10 := by decide
  have h10b : ("0x7d41c86e" : String).length = 10 := by decide
  have h10c : ("0x492e47d2" : String).length = 10 := by decide
  refine ⟨⟨padStart (toHex v) 64 '0' ++ padStart sender 64 '0', ?_, ?_⟩,
    ⟨padStart (toHex v) 64 '0' ++ (padStart sender 64 '0' ++ padStart sender 64 '0'), ?_, ?_⟩,
    ⟨padStart "40" 64 '0' ++ (padStart sender 64 '0' ++
      (padStart "01" 64 '0' ++ padStart (intHex z) 64 '0')), ?_, ?_⟩⟩
  · rw [aprioriStake_deposit_eq sender amt r v hamt]
    simp only [str_append_assoc]
  · rw [str_length_append, str_length_append, hwa, hws, h10a]
  · rw [aprioriStake_unstake_eq sender amt r v hamt]
    simp only [str_append_assoc]
  · rw [str_length_append, str_length_append, str_length_append, hwa, hws, h10b]
  · rw [aprioriStake_redeem_eq sender rid a z hrid hz]
    simp only [str_append_assoc]
  · rw [str_length_append, str_length_append, str_length_append, str_length_append,
      hw40, hws, hw01, hwz, h10c]

set_option maxRecDepth 16384 in
/-- Witness for C1: sender of 40 hex characters, amount `"1.5"`, requestId `"255"`. -/
theorem stake_calldata_selector_and_length_witness :
    (sampleSender.length = 40 ∧ parseUnits18 "1.5" = some 1500000000000000000 ∧
      bigIntParse "255" = some 255) ∧
    ((∃ w, aprioriStake sampleSender .deposit (some "1.5") none =
        .submit contractAddress ("0x6e553f65" ++ w) 1500000000000000000 gasLimitStake ∧
        ("0x6e553f65" ++ w).length = 2 + 2 * (4 + 32 * 2)) ∧
    (∃ w, aprioriStake sampleSender .unstake (some "1.5") none =
        .submit contractAddress ("0x7d41c86e" ++ w) 0 gasLimitUnstake ∧
        ("0x7d41c86e" ++ w).length = 2 + 2 * (4 + 32 * 3)) ∧
    (∃ w, aprioriStake sampleSender .redeem none (some "255") =
        .submit contractAddress ("0x492e47d2" ++ w) 0 gasLimitClaim ∧
        ("0x492e47d2" ++ w).length = 2 + 2 * (4 + 32 * 4))) :=
  ⟨⟨by decide, by decide, by decide⟩,
    stake_calldata_selector_and_length sampleSender "1.5" "255"
      1500000000000000000 255 none none (by decide) (by decide) (by norm_num)
      (by decide) (by decide) (by decide) (by norm_num)⟩

set_option maxRecDepth 16384 in
/-- Counterexample to C1 as stated: the amount `10^60` MON is present and
numerically valid, yet its scaled value `10^78` needs 65 hex digits, so
`padStart(64)` does not truncate it and the deposit calldata has 139
characters — not the `2 + 2 * (4 + 32 * 2) = 138` characters (68 bytes) the
claim requires. -/
theorem stake_calldata_length_overflow_cex :
    (aprioriStake sampleSender .deposit (some bigAmtStr) none).dataOf.map String.length =
      some 139 ∧ (139 : Nat) ≠ 2 + 2 * (4 + 32 * 2) := by
  exact ⟨by decide, by decide⟩

/-- C2 (amended): for deposit and unstake the amount string is scaled by
`10^18` with exact integer arithmetic; the amount word placed directly after
the selector is the left-zero-padded big-endian hex encoding of that exact
integer and decodes back to it, and is exactly 64 hex characters whenever the
scaled value is below `2^256` (the fit §3 requires callers to guarantee); in
particular `"1.5"` scales to `1500000000000000000` whose word is
`00...014d1120d7b160000` (64 characters). -/
theorem amount_word_exact_scaling
    (sender amt : String) (v : Nat) (r : Option String)
    (hamt : parseUnits18 amt = some v) (hv : v < 2 ^ 256) :
    aprioriStake sender .deposit (some amt) r =
      .submit contractAddress
        ("0x6e553f65" ++ padStart (toHex v) 64 '0' ++ padStart sender 64 '0')
        v gasLimitStake ∧
    aprioriStake sender .unstake (some amt) r =
      .submit contractAddress
        ("0x7d41c86e" ++ padStart (toHex v) 64 '0' ++ padStart sender 64 '0' ++
          padStart sender 64 '0')
        0 gasLimitUnstake ∧
    (padStart (toHex v) 64 '0').length = 64 ∧
    hexToNat (padStart (toHex v) 64 '0') = v ∧
    parseUnits18 "1.5" = some 1500000000000000000 ∧
    padStart (toHex 1500000000000000000) 64 '0' =
      "00000000000000000000000000000000000000000000000014d1120d7b160000" := by
  refine ⟨aprioriStake_deposit_eq sender amt r v hamt,
    aprioriStake_unstake_eq sender amt r v hamt,
    padStart64_length_of_le _ (toHex_length_le v hv),
    hexToNat_padStart_toHex v, by decide, by decide⟩

set_option maxRecDepth 16384 in
/-- Witness for C2: sender of 40 hex characters, amount `"1.5"`. -/
theorem amount_word_exact_scaling_witness :
    (parseUnits18 "1.5" = some 1500000000000000000 ∧
      (1500000000000000000 : Nat) < 2 ^ 256) ∧
    (aprioriStake sampleSender .deposit (some "1.5") none =
      .submit contractAddress
        ("0x6e553f65" ++ padStart (toHex 1500000000000000000) 64 '0' ++
          padStart sampleSender 64 '0')
        1500000000000000000 gasLimitStake ∧
    aprioriStake sampleSender .unstake (some "1.5") none =
      .submit contractAddress
        ("0x7d41c86e" ++ padStart (toHex 1500000000000000000) 64 '0' ++
          padStart sampleSender 64 '0' ++ padStart sampleSender 64 '0')
        0 gasLimitUnstake ∧
    (padStart (toHex 1500000000000000000) 64 '0').length = 64 ∧
    hexToNat (padStart (toHex 1500000000000000000) 64 '0') = 1500000000000000000 ∧
    parseUnits18 "1.5" = some 1500000000000000000 ∧
    padStart (toHex 1500000000000000000) 64 '0' =
      "00000000000000000000000000000000000000000000000014d1120d7b160000") :=
  ⟨⟨by decide, by norm_num⟩,
    amount_word_exact_scaling sampleSender "1.5" 1500000000000000000 none
      (by decide) (by norm_num)⟩

set_option maxRecDepth 16384 in
/-- Counterexample to C2 as stated: for the present, numerically valid amount
`10^60` MON the unstake amount word has 65 hex characters, not the 64 the
claim promises for every amount. -/
theorem amount_word_length_overflow_cex :
    parseUnits18 bigAmtStr = some (10 ^ 78) ∧
    (aprioriStake sampleSender .unstake (some bigAmtStr) none).dataOf =
      some ("0x7d41c86e" ++ padStart (toHex (10 ^ 78)) 64 '0' ++
        padStart sampleSender 64 '0' ++ padStart sampleSender 64 '0') ∧
    (padStart (toHex (10 ^ 78)) 64 '0').length = 65 := by
  exact ⟨by decide, by decide, by decide⟩

/-- C3: for a redeem with a valid (non-negative, below-`2^256`, non-empty)
requestId the calldata after the selector `0x492e47d2` is, in order: the
constant offset word of value `0x40`, the caller address left-zero-padded to
64 hex characters, the constant flag word of value `1`, and the requestId as
a left-zero-padded 64-hex-character word decoding back to the requestId;
requestId `"0"` encodes as 64 zero characters and `"255"` as a word ending in
`"ff"`. -/
theorem redeem_word_layout
    (sender rid : String) (z : Int) (a : Option String)
    (hs : sender.length = 40) (hrid : rid ≠ "")
    (hz : bigIntParse rid = some z) (hz0 : 0 ≤ z) (hzn : z.toNat < 2 ^ 256) :
    aprioriStake sender .redeem a (some rid) =
      .submit contractAddress
        ("0x492e47d2" ++ padStart "40" 64 '0' ++ padStart sender 64 '0' ++
          padStart "01" 64 '0' ++ padStart (toHex z.toNat) 64 '0')
        0 gasLimitClaim ∧
    hexToNat (padStart "40" 64 '0') = 64 ∧
    (padStart sender 64 '0').length = 64 ∧
    hexToNat (padStart "01" 64 '0') = 1 ∧
    hexToNat (padStart (toHex z.toNat) 64 '0') = z.toNat ∧
    (padStart (toHex z.toNat) 64 '0').length = 64 ∧
    bigIntParse "0" = some 0 ∧
    padStart (toHex 0) 64 '0' = String.mk (List.replicate 64 '0') ∧
    bigIntParse "255" = some 255 ∧
    padStart (toHex 255) 64 '0' = String.mk (List.replicate 62 '0') ++ "ff" := by
  have hzhex : intHex z = toHex z.toNat := by
    rw [intHex, if_neg (not_lt.mpr hz0)]
  refine ⟨?_, by decide, padStart64_length_of_le _ (by omega), by decide,
    hexToNat_padStart_toHex _, padStart64_length_of_le _ (toHex_length_le _ hzn),
    by decide, by decide, by decide, by decide⟩
  rw [aprioriStake_redeem_eq sender rid a z hrid hz, hzhex]

set_option maxRecDepth 16384 in
/-- Witness for C3: sender of 40 hex characters, requestId `"255"`. -/
theorem redeem_word_layout_witness :
    (sampleSender.length = 40 ∧ bigIntParse "255" = some 255) ∧
    (aprioriStake sampleSender .redeem none (some "255") =
      .submit contractAddress
        ("0x492e47d2" ++ padStart "40" 64 '0' ++ padStart sampleSender 64 '0' ++
          padStart "01" 64 '0' ++ padStart (toHex (255 : Int).toNat) 64 '0')
        0 gasLimitClaim ∧
    hexToNat (padStart "40" 64 '0') = 64 ∧
    (padStart sampleSender 64 '0').length = 64 ∧
    hexToNat (padStart "01" 64 '0') = 1 ∧
    hexToNat (padStart (toHex (255 : Int).toNat) 64 '0') = (255 : Int).toNat ∧
    (padStart (toHex (255 : Int).toNat) 64 '0').length = 64 ∧
    bigIntParse "0" = some 0 ∧
    padStart (toHex 0) 64 '0' = String.mk (List.replicate 64 '0') ∧
    bigIntParse "255" = some 255 ∧
    padStart (toHex 255) 64 '0' = String.mk (List.replicate 62 '0') ++ "ff") :=
  ⟨⟨by decide, by decide⟩,
    redeem_word_layout sampleSender "255" 255 none (by decide) (by decide)
      (by decide) (by decide) (by norm_num)⟩

/-- C4: when the amount is absent for deposit or unstake, or the requestId is
absent for redeem, the handler returns the corresponding error report before
the calldata switch, so `sendTransaction` is never reached (the outcome is an
`err`, not a `submit`). -/
theorem missing_param_returns_error_no_submit :
    ∀ (sender : String) (rid amt : Option String),
      aprioriStake sender .deposit none rid =
        .err "Error: Amount is required for deposit operation." ∧
      aprioriStake sender .unstake none rid =
        .err "Error: Amount is required for unstake operation." ∧
      aprioriStake sender .redeem amt none =
        .err "Error: Request ID is required for redeem operation." := by
  intro sender rid amt
  refine ⟨rfl, rfl, ?_⟩
  rw [aprioriStake, if_neg (by simp), if_pos (by simp)]

set_option maxRecDepth 16384 in
/-- Counterexample to C5 as stated: for the negative requestId `"-1"` the
handler performs no `InvalidRequestId` check: it builds the malformed word
`00...0-1` (the JavaScript `BigInt.toString(16)` sign survives the zero pad)
and reaches `sendTransaction` with it, instead of returning an error report. -/
theorem redeem_negative_requestid_submits_cex :
    aprioriStake sampleSender .redeem none (some "-1") =
      .submit contractAddress
        ("0x492e47d2" ++ padStart "40" 64 '0' ++ padStart sampleSender 64 '0' ++
          padStart "01" 64 '0' ++ padStart "-1" 64 '0')
        0 gasLimitClaim ∧
    '-' ∈ (padStart "-1" 64 '0').data := by
  exact ⟨by decide, by decide⟩

/-- C5 (amended): the builder performs no `InvalidRequestId` validation.  A
requestId that parses to a negative integer produces a calldata string that
contains a minus sign (a malformed hex word) and is still handed to
`sendTransaction`; a requestId of `2^256` or more produces an over-length
calldata string (more than the nominal 266 characters) and is likewise handed
to `sendTransaction`.  Only a non-numeric requestId fails, and then with the
generic catch-block report, not an `InvalidRequestId` one. -/
theorem redeem_invalid_requestid_behavior
    (sender : String) (a : Option String) (rid : String) (z : Int)
    (hs : sender.length = 40) (hrid : rid ≠ "") (hz : bigIntParse rid = some z) :
    (z < 0 → ∃ d, aprioriStake sender .redeem a (some rid) =
        .submit contractAddress d 0 gasLimitClaim ∧ '-' ∈ d.data) ∧
    (2 ^ 256 ≤ z.toNat → ∃ d, aprioriStake sender .redeem a (some rid) =
        .submit contractAddress d 0 gasLimitClaim ∧ 266 < d.length) := by
  constructor
  · intro hneg
    refine ⟨_, aprioriStake_redeem_eq sender rid a z hrid hz, ?_⟩
    have hih : intHex z = "-" ++ toHex z.natAbs := by
      rw [intHex, if_pos hneg]
    rw [str_data_append, str_data_append]
    refine List.mem_append.mpr (Or.inr ?_)
    show '-' ∈ (List.replicate (64 - (intHex z).length) '0' ++ (intHex z).data)
    refine List.mem_append.mpr (Or.inr ?_)
    rw [hih, str_data_append]
    exact List.mem_append.mpr (Or.inl (by decide))
  · intro hbig
    refine ⟨_, aprioriStake_redeem_eq sender rid a z hrid hz, ?_⟩
    have hz0 : 0 ≤ z := by
      by_contra hneg
      push_neg at hneg
      rw [Int.toNat_of_nonpos (le_of_lt hneg)] at hbig
      norm_num at hbig
    have hih : intHex z = toHex z.toNat := by
      rw [intHex, if_neg (not_lt.mpr hz0)]
    have hlen : 65 ≤ (padStart (intHex z) 64 '0').length := by
      rw [padStart_length, hih]
      have := toHex_length_gt z.toNat hbig
      omega
    rw [str_length_append, str_length_append, str_length_append, str_length_append,
      padStart64_length_of_le _ (by decide : ("40" : String).length ≤ 64),
      padStart64_length_of_le _ (by omega),
      padStart64_length_of_le _ (by decide : ("01" : String).length ≤ 64)]
    have : ("0x492e47d2" : String).length = 10 := by decide
    omega

set_option maxRecDepth 16384 in
/-- Witness for C5 amended: requestId `"-1"` (negative) and requestId
`2 * 10^77` (exceeding 256 bits), both with a 40-hex-character sender. -/
theorem redeem_invalid_requestid_behavior_witness :
    ((sampleSender.length = 40 ∧ bigIntParse "-1" = some (-1) ∧
      bigIntParse bigRidStr = some 200000000000000000000000000000000000000000000000000000000000000000000000000000) ∧
    (∃ d, aprioriStake sampleSender .redeem none (some "-1") =
        .submit contractAddress d 0 gasLimitClaim ∧ '-' ∈ d.data) ∧
    (∃ d, aprioriStake sampleSender .redeem none (some bigRidStr) =
        .submit contractAddress d 0 gasLimitClaim ∧ 266 < d.length)) :=
  ⟨⟨by decide, by decide, by decide⟩,
    (redeem_invalid_requestid_behavior sampleSender none "-1" (-1)
      (by decide) (by decide) (by decide)).1 (by norm_num),
    (redeem_invalid_requestid_behavior sampleSender none bigRidStr
      200000000000000000000000000000000000000000000000000000000000000000000000000000
      (by decide) (by decide) (by decide)).2 (by norm_num)⟩

/-- A transaction as it appears in a fetched block's transaction list. -/
structure Tx where
  hash : String
  sender : String
  toAddr : Option String
  value : Nat
deriving DecidableEq

/-- A block fetched with its full transaction list. -/
structure Block where
  number : Nat
  timestamp : Nat
  transactions : List Tx
deriving DecidableEq

/-- A transaction receipt (`getTransactionReceipt`); `status` is the client
library's `"success"`/`"reverted"` string. -/
structure Receipt where
  status : String
  gasUsed : Nat
  blockNumber : Nat
deriving DecidableEq

/-- A transaction as returned by `getTransaction` (for `transaction-details`). -/
structure TxInfo where
  sender : String
  toAddr : Option String
  value : Nat
  gasPrice : Option Nat
deriving DecidableEq

/-- The external RPC read collaborator (`publicClient`), §6: one oracle per
chain-read operation, `Option`-valued where the handler wraps the call in
try/catch (`none` models the call throwing).  `getBlockInfo` is the
transaction-free `getBlock({blockNumber})` variant whose result
`chain-statistics` discards; `chainId`/`gasPrice` are fetched outside any
per-block guard and modelled as plain values. -/
structure Chain where
  getHead : Option Nat
  getBlock : Nat → Option Block
  getBlockInfo : Nat → Option Unit
  getReceipt : String → Option Receipt
  getTransaction : String → Option TxInfo
  getTxCount : String → Option Nat
  chainId : Nat
  gasPrice : Nat

/-- One entry of the `transactions` array built by `account-transaction-history`
(source lines 558-567). -/
structure ActivityRecord where
  hash : String
  blockNumber : Nat
  sender : String
  toAddr : Option String
  value : Nat
  timestamp : Nat
  status : String
  gasUsed : Nat
deriving DecidableEq

/-- Mutable loop state of the history walk: the `transactions` array, the
`processed` dedup set (as a list with exact-string membership, like the JS
`Set<string>`), and the trace of block numbers for which a block fetch was
attempted (one per executed loop iteration). -/
structure HistState where
  recs : List ActivityRecord
  processed : List String
  fetched : List Nat
deriving DecidableEq

/-- The inner transaction loop of `account-transaction-history` (source lines
543-571) over one block's transaction list.  A transaction already in the
dedup set, or arriving once the limit is reached, is skipped; an
address-matching transaction triggers a receipt fetch, and a throwing receipt
fetch aborts the rest of this block's list via the surrounding per-block
catch, keeping everything already accumulated. -/
def processTxs (c : Chain) (fmt : String) (limit : Nat) (blk : Block) :
    List Tx → List ActivityRecord × List String → List ActivityRecord × List String
  | [], acc => acc
  | tx :: rest, (recs, proc) =>
    if tx.hash ∈ proc ∨ limit ≤ recs.length then
      processTxs c fmt limit blk rest (recs, proc)
    else if tx.sender.toLower = fmt ∨ tx.toAddr.map String.toLower = some fmt then
      match c.getReceipt tx.hash with
      | none => (recs, proc)
      | some rc =>
        processTxs c fmt limit blk rest
          (recs ++ [⟨tx.hash, blk.number, tx.sender, tx.toAddr, tx.value,
            blk.timestamp, rc.status, rc.gasUsed⟩], tx.hash :: proc)
    else processTxs c fmt limit blk rest (recs, proc)

/-- The outer block walk of `account-transaction-history` (source lines
535-580): at most `rem` further iterations (the `i < blocksToSearch` guard),
stopping early once `limit` records are collected; a throwing block fetch
decrements the block number in the catch block and continues. -/
def walkAux (c : Chain) (fmt : String) (limit : Nat) : Nat → Nat → HistState → HistState
  | 0, _, st => st
  | rem + 1, cur, st =>
    if limit ≤ st.recs.length then st
    else
      match c.getBlock cur with
      | none => walkAux c fmt limit rem (cur - 1) ⟨st.recs, st.processed, st.fetched ++ [cur]⟩
      | some blk =>
        let p := processTxs c fmt limit blk blk.transactions (st.recs, st.processed)
        walkAux c fmt limit rem (cur - 1) ⟨p.1, p.2, st.fetched ++ [cur]⟩

/-- The fixed `blocksToSearch = 10` bound of the history walk. -/
def blocksToSearch : Nat := 10

/-- Success payload of `account-transaction-history`: the reported nonce, the
found records, and the trace of attempted block fetches. -/
structure HistoryReport where
  nonce : Nat
  records : List ActivityRecord
  fetched : List Nat
deriving DecidableEq

/-- The `account-transaction-history` tool handler (source lines 506-619):
fetch the nonce and the head block number (either throwing lands in the outer
catch and yields the error report), then walk at most `blocksToSearch` recent
blocks collecting at most `limit` matching records. -/
def historyModel (c : Chain) (address : String) (limit : Nat) :
    Except String HistoryReport :=
  match c.getTxCount address with
  | none => .error "Error fetching transaction history"
  | some sentTxs =>
    match c.getHead with
    | none => .error "Error fetching transaction history"
    | some latestBlock =>
      let fin := walkAux c address.toLower limit blocksToSearch latestBlock ⟨[], [], []⟩
      .ok ⟨sentTxs, fin.recs, fin.fetched⟩

/-- JS `Set.add`: insert a string if not already present (insertion order kept). -/
def insertAddr (s : List String) (a : String) : List String :=
  if a ∈ s then s else s ++ [a]

/-- Add a transaction's sender, and its recipient when present, to the
unique-address set (source lines 658-666). -/
def addTxAddrs (s : List String) (tx : Tx) : List String :=
  match tx.toAddr with
  | some t => insertAddr (insertAddr s tx.sender) t
  | none => insertAddr s tx.sender

/-- One iteration of the `chain-statistics` loop (source lines 638-670):
fetch basic block info, then the block with transactions (either throwing is
caught, skipping the block), then tally the transaction count and addresses. -/
def statsStep (c : Chain) (hd i : Nat) (acc : Nat × List String) : Nat × List String :=
  match c.getBlockInfo (hd - i) with
  | none => acc
  | some _ =>
    match c.getBlock (hd - i) with
    | none => acc
    | some blockWithTxs =>
      (acc.1 + blockWithTxs.transactions.length,
        blockWithTxs.transactions.foldl addTxAddrs acc.2)

/-- Success payload of `chain-statistics`; `average` models the JS division
`totalTransactions / blocks` exactly (as a rational — the source only rounds
for display via `toFixed(2)`). -/
structure StatsReport where
  chainId : Nat
  currentBlock : Nat
  gasPrice : Nat
  totalTransactions : Nat
  uniqueAddresses : Nat
  average : ℚ
deriving DecidableEq

/-- The `chain-statistics` tool handler (source lines 622-707): walk the
`min(blocks, 10)` most recent blocks tallying transactions and distinct
addresses, then report the average over the *requested* `blocks` count. -/
def statsModel (c : Chain) (blocks : Nat) : Except String StatsReport :=
  match c.getHead with
  | none => .error "Error fetching chain statistics"
  | some latestBlock =>
    let r := (List.range (min blocks 10)).foldl
      (fun acc i => statsStep c latestBlock i acc) (0, [])
    .ok ⟨c.chainId, latestBlock, c.gasPrice, r.1, r.2.length, (r.1 : ℚ) / (blocks : ℚ)⟩

/-- The fields of a successful `transaction-details` report (source lines
207-230); `value`/`gasPrice` keep the raw chain quantities (the source only
formats them through the external `formatUnits` collaborator for display). -/
structure TdReport where
  status : String
  blockNumber : Nat
  sender : String
  recipient : String
  value : Nat
  gasUsed : Nat
  gasPrice : Nat
  timestamp : String
deriving DecidableEq

/-- The `transaction-details` tool handler (source lines 185-244).  `now`
models the `new Date().toISOString()` wall-clock sample taken when the report
is formatted; no block is fetched, so no chain timestamp is available to the
report. -/
def txDetailsModel (c : Chain) (hash : String) (now : String) :
    Except String TdReport :=
  match c.getTransaction hash with
  | none => .error ("Failed to retrieve transaction details for hash: " ++ hash)
  | some tx =>
    match c.getReceipt hash with
    | none => .error ("Failed to retrieve transaction details for hash: " ++ hash)
    | some receipt =>
      .ok ⟨if receipt.status = "success" then "Success" else "Failed",
        receipt.blockNumber, tx.sender, tx.toAddr.getD "Contract Creation",
        tx.value, receipt.gasUsed, tx.gasPrice.getD 0, now⟩

/-- A transaction with a distinct hash per block/position for the sample chain. -/
def sampleTx (n k : Nat) : Tx :=
  ⟨"0xh" ++ toHex n ++ "x" ++ toHex k, "0xsender", some "0xrecv", 0⟩

/-- Sample block `n` (for `96 ≤ n ≤ 100`) carrying `n - 95` transactions. -/
def sampleBlock (n : Nat) : Block :=
  ⟨n, 1000 + n, (List.range (n - 95)).map (fun k => sampleTx n k)⟩

/-- A concrete chain for witnesses: head block 100, blocks 96-100 fetchable
(with 1-5 transactions), everything older failing to fetch. -/
def sampleChain : Chain where
  getHead := some 100
  getBlock := fun n => if 96 ≤ n ∧ n ≤ 100 then some (sampleBlock n) else none
  getBlockInfo := fun n => if 96 ≤ n ∧ n ≤ 100 then some () else none
  getReceipt := fun _ => some ⟨"success", 21000, 100⟩
  getTransaction := fun h =>
    if h = "0xtx" then some ⟨"0xa", some "0xb", 5, some 7⟩ else none
  getTxCount := fun _ => some 42
  chainId := 10143
  gasPrice := 52

/-- The transaction loop preserves the dedup invariant: record hashes stay
pairwise distinct and every recorded hash is in the processed set. -/
theorem processTxs_inv (c : Chain) (fmt : String) (limit : Nat) (blk : Block) :
    ∀ (txs : List Tx) (recs : List ActivityRecord) (proc : List String),
      (recs.map ActivityRecord.hash).Nodup →
      (∀ r ∈ recs, r.hash ∈ proc) →
      ((processTxs c fmt limit blk txs (recs, proc)).1.map ActivityRecord.hash).Nodup ∧
      (∀ r ∈ (processTxs c fmt limit blk txs (recs, proc)).1,
        r.hash ∈ (processTxs c fmt limit blk txs (recs, proc)).2) := by
  intro txs
  induction txs with
  | nil =>
    intro recs proc h1 h2
    exact ⟨h1, h2⟩
  | cons tx rest ih =>
    intro recs proc h1 h2
    rw [processTxs]
    by_cases hc : tx.hash ∈ proc ∨ limit ≤ recs.length
    · rw [if_pos hc]
      exact ih recs proc h1 h2
    · rw [if_neg hc]
      push_neg at hc
      by_cases hm : tx.sender.toLower = fmt ∨ tx.toAddr.map String.toLower = some fmt
      · rw [if_pos hm]
        cases hrc : c.getReceipt tx.hash with
        | none => exact ⟨h1, h2⟩
        | some rc =>
          apply ih
          · rw [List.map_append]
            rw [List.nodup_append]
            refine ⟨h1, by simp, ?_⟩
            intro a ha
            simp only [List.map_cons, List.map_nil, List.mem_singleton]
            intro hax
            subst hax
            obtain ⟨r, hr, hrh⟩ := List.mem_map.mp ha
            exact hc.1 (hrh ▸ h2 r hr)
          · intro r hr
            rcases List.mem_append.mp hr with hin | hone
            · exact List.mem_cons_of_mem _ (h2 r hin)
            · rw [List.mem_singleton.mp hone]
              exact List.mem_cons_self _ _
      · rw [if_neg hm]
        exact ih recs proc h1 h2

/-- The block walk preserves the dedup invariant on the record list. -/
theorem walkAux_inv (c : Chain) (fmt : String) (limit : Nat) :
    ∀ (rem cur : Nat) (st : HistState),
      (st.recs.map ActivityRecord.hash).Nodup →
      (∀ r ∈ st.recs, r.hash ∈ st.processed) →
      ((walkAux c fmt limit rem cur st).recs.map ActivityRecord.hash).Nodup := by
  intro rem
  induction rem with
  | zero =>
    intro cur st h1 h2
    exact h1
  | succ n ih =>
    intro cur st h1 h2
    rw [walkAux]
    by_cases hg : limit ≤ st.recs.length
    · rw [if_pos hg]; exact h1
    · rw [if_neg hg]
      cases hb : c.getBlock cur with
      | none => exact ih _ _ h1 h2
      | some blk =>
        have hp := processTxs_inv c fmt limit blk blk.transactions st.recs st.processed h1 h2
        exact ih _ _ hp.1 hp.2

/-- C6: a successful `account-transaction-history` report never contains two
records with the same transaction hash — the `processed` set is checked
before a transaction is considered and extended with every recorded hash,
even when the target address matches the transaction as both sender and
recipient (a single match suffices and the hash is then in the set). -/
theorem history_records_hash_nodup
    (c : Chain) (address : String) (limit : Nat) (rep : HistoryReport)
    (h : historyModel c address limit = .ok rep) :
    (rep.records.map ActivityRecord.hash).Nodup := by
  rw [historyModel] at h
  cases hn : c.getTxCount address with
  | none => rw [hn] at h; cases h
  | some sentTxs =>
    rw [hn] at h
    cases hh : c.getHead with
    | none => rw [hh] at h; cases h
    | some latestBlock =>
      rw [hh] at h
      injection h with h
      have hw := walkAux_inv c address.toLower limit blocksToSearch latestBlock
        ⟨[], [], []⟩ (by simp) (by simp)
      rw [← h]
      exact hw

set_option maxRecDepth 16384 in
/-- Witness for C6: the sample chain, whose target address matches every
transaction of the five fetchable blocks as sender. -/
theorem history_records_hash_nodup_witness :
    (∃ rep, historyModel sampleChain "0xsender" 3 = .ok rep ∧
      (rep.records.map ActivityRecord.hash).Nodup) :=
  ⟨_, rfl, history_records_hash_nodup sampleChain "0xsender" 3 _ rfl⟩

/-- The transaction loop never grows the record list beyond the limit
(a record is only appended under the `recs.length < limit` guard). -/
theorem processTxs_len (c : Chain) (fmt : String) (limit : Nat) (blk : Block) :
    ∀ (txs : List Tx) (recs : List ActivityRecord) (proc : List String),
      recs.length ≤ limit →
      (processTxs c fmt limit blk txs (recs, proc)).1.length ≤ limit := by
  intro txs
  induction txs with
  | nil => intro recs proc h; exact h
  | cons tx rest ih =>
    intro recs proc h
    rw [processTxs]
    by_cases hc : tx.hash ∈ proc ∨ limit ≤ recs.length
    · rw [if_pos hc]; exact ih recs proc h
    · rw [if_neg hc]
      push_neg at hc
      by_cases hm : tx.sender.toLower = fmt ∨ tx.toAddr.map String.toLower = some fmt
      · rw [if_pos hm]
        cases hrc : c.getReceipt tx.hash with
        | none => exact h
        | some rc =>
          apply ih
          rw [List.length_append]
          simp only [List.length_cons, List.length_nil]
          omega
      · rw [if_neg hm]
        exact ih recs proc h

/-- Unfolding: once the limit is reached the walk stops immediately. -/
theorem walkAux_stop (c : Chain) (fmt : String) (limit rem cur : Nat) (st : HistState)
    (hg : limit ≤ st.recs.length) :
    walkAux c fmt limit (rem + 1) cur st = st := by
  rw [walkAux, if_pos hg]

/-- Unfolding: a failing block fetch logs the attempt and moves the walk to
the next older block with records and dedup set untouched. -/
theorem walkAux_fail_step (c : Chain) (fmt : String) (limit rem cur : Nat) (st : HistState)
    (hg : st.recs.length < limit) (hb : c.getBlock cur = none) :
    walkAux c fmt limit (rem + 1) cur st =
      walkAux c fmt limit rem (cur - 1) ⟨st.recs, st.processed, st.fetched ++ [cur]⟩ := by
  rw [walkAux, if_neg (by omega), hb]

/-- Unfolding: a successful block fetch processes the block's transactions and
moves the walk to the next older block with whatever the transaction loop
accumulated (also when a receipt fetch aborted that loop midway). -/
theorem walkAux_fetch_step (c : Chain) (fmt : String) (limit rem cur : Nat) (st : HistState)
    (blk : Block) (hg : st.recs.length < limit) (hb : c.getBlock cur = some blk) :
    walkAux c fmt limit (rem + 1) cur st =
      walkAux c fmt limit rem (cur - 1)
        ⟨(processTxs c fmt limit blk blk.transactions (st.recs, st.processed)).1,
         (processTxs c fmt limit blk blk.transactions (st.recs, st.processed)).2,
         st.fetched ++ [cur]⟩ := by
  rw [walkAux, if_neg (by omega), hb]

/-- Stopping discipline of the block walk: the record count never exceeds the
limit, at most `rem` further fetches are attempted, and if fewer than `rem`
fetches were attempted the walk must have stopped because the limit was
reached. -/
theorem walkAux_bounds (c : Chain) (fmt : String) (limit : Nat) :
    ∀ (rem cur : Nat) (st : HistState), st.recs.length ≤ limit →
      (walkAux c fmt limit rem cur st).recs.length ≤ limit ∧
      (walkAux c fmt limit rem cur st).fetched.length ≤ st.fetched.length + rem ∧
      ((walkAux c fmt limit rem cur st).fetched.length < st.fetched.length + rem →
        (walkAux c fmt limit rem cur st).recs.length = limit) := by
  intro rem
  induction rem with
  | zero =>
    intro cur st h
    have he : walkAux c fmt limit 0 cur st = st := rfl
    rw [he]
    exact ⟨h, le_rfl, fun h' => by omega⟩
  | succ n ih =>
    intro cur st h
    by_cases hg : limit ≤ st.recs.length
    · rw [walkAux_stop c fmt limit n cur st hg]
      exact ⟨h, by omega, fun _ => by omega⟩
    · cases hb : c.getBlock cur with
      | none =>
        rw [walkAux_fail_step c fmt limit n cur st (by omega) hb]
        have := ih (cur - 1) ⟨st.recs, st.processed, st.fetched ++ [cur]⟩ h
        have hf : (⟨st.recs, st.processed, st.fetched ++ [cur]⟩ : HistState).fetched =
          st.fetched ++ [cur] := rfl
        rw [hf] at this
        simp only [List.length_append, List.length_cons, List.length_nil] at this
        exact ⟨this.1, by omega, fun h' => this.2.2 (by omega)⟩
      | some blk =>
        have hl := processTxs_len c fmt limit blk blk.transactions st.recs st.processed
          (le_of_lt (lt_of_not_le hg))
        rw [walkAux_fetch_step c fmt limit n cur st blk (by omega) hb]
        have := ih (cur - 1)
          ⟨(processTxs c fmt limit blk blk.transactions (st.recs, st.processed)).1,
           (processTxs c fmt limit blk blk.transactions (st.recs, st.processed)).2,
           st.fetched ++ [cur]⟩ hl
        have hf : (⟨(processTxs c fmt limit blk blk.transactions (st.recs, st.processed)).1,
           (processTxs c fmt limit blk blk.transactions (st.recs, st.processed)).2,
           st.fetched ++ [cur]⟩ : HistState).fetched = st.fetched ++ [cur] := rfl
        rw [hf] at this
        simp only [List.length_append, List.length_cons, List.length_nil] at this
        exact ⟨this.1, by omega, fun h' => this.2.2 (by omega)⟩

/-- With `limit = 0` the loop guard `transactions.length < limit` is false at
entry, so the walk returns its initial state untouched. -/
theorem walkAux_limit_zero (c : Chain) (fmt : String) :
    ∀ (rem cur : Nat) (st : HistState), walkAux c fmt 0 rem cur st = st := by
  intro rem
  cases rem with
  | zero => intro cur st; rfl
  | succ n =>
    intro cur st
    rw [walkAux, if_pos (Nat.zero_le _)]

/-- C9: a successful `account-transaction-history` call with `limit = 0`
returns zero records and attempts no block fetch at all (only the nonce and
head fetches precede the walk); in general the walk attempts at most
`blocksToSearch = 10` block fetches, collects at most `limit` records, and if
it attempted fewer than 10 fetches it stopped because exactly `limit` records
had been collected — whichever bound is hit first ends the walk. -/
theorem history_limit_zero_and_stopping
    (c : Chain) (address : String) (limit : Nat) (rep : HistoryReport)
    (h : historyModel c address limit = .ok rep) :
    (limit = 0 → rep.records = [] ∧ rep.fetched = []) ∧
    rep.fetched.length ≤ blocksToSearch ∧
    rep.records.length ≤ limit ∧
    (rep.fetched.length < blocksToSearch → rep.records.length = limit) := by
  rw [historyModel] at h
  cases hn : c.getTxCount address with
  | none => rw [hn] at h; cases h
  | some sentTxs =>
    rw [hn] at h
    cases hh : c.getHead with
    | none => rw [hh] at h; cases h
    | some latestBlock =>
      rw [hh] at h
      injection h with h
      have hb := walkAux_bounds c address.toLower limit blocksToSearch latestBlock
        ⟨[], [], []⟩ (by simp)
      refine ⟨?_, ?_, ?_, ?_⟩
      · intro hl
        subst hl
        rw [← h, walkAux_limit_zero]
        exact ⟨rfl, rfl⟩
      · rw [← h]
        simpa using hb.2.1
      · rw [← h]
        exact hb.1
      · rw [← h]
        intro h'
        exact hb.2.2 (by simpa using h')

set_option maxRecDepth 16384 in
/-- Witness for C9: the sample chain at `limit = 0`. -/
theorem history_limit_zero_and_stopping_witness :
    (∃ rep, historyModel sampleChain "0xsender" 0 = .ok rep ∧
      ((0 = 0 → rep.records = [] ∧ rep.fetched = []) ∧
        rep.fetched.length ≤ blocksToSearch ∧
        rep.records.length ≤ 0 ∧
        (rep.fetched.length < blocksToSearch → rep.records.length = 0))) :=
  ⟨_, rfl, history_limit_zero_and_stopping sampleChain "0xsender" 0 _ rfl⟩

/-- The transaction loop only ever appends to the record list, so the records
accumulated before a receipt-fetch failure survive it. -/
theorem processTxs_preserves (c : Chain) (fmt : String) (limit : Nat) (blk : Block) :
    ∀ (txs : List Tx) (recs : List ActivityRecord) (proc : List String),
      ∃ t, (processTxs c fmt limit blk txs (recs, proc)).1 = recs ++ t := by
  intro txs
  induction txs with
  | nil =>
    intro recs proc
    exact ⟨[], (List.append_nil recs).symm⟩
  | cons tx rest ih =>
    intro recs proc
    rw [processTxs]
    by_cases hc : tx.hash ∈ proc ∨ limit ≤ recs.length
    · rw [if_pos hc]; exact ih recs proc
    · rw [if_neg hc]
      by_cases hm : tx.sender.toLower = fmt ∨ tx.toAddr.map String.toLower = some fmt
      · rw [if_pos hm]
        cases hrc : c.getReceipt tx.hash with
        | none => exact ⟨[], (List.append_nil recs).symm⟩
        | some rc =>
          obtain ⟨t, ht⟩ := ih
            (recs ++ [⟨tx.hash, blk.number, tx.sender, tx.toAddr, tx.value,
              blk.timestamp, rc.status, rc.gasUsed⟩]) (tx.hash :: proc)
          exact ⟨_ :: t, by rw [ht, List.append_assoc]; rfl⟩
      · rw [if_neg hm]
        exact ih recs proc

/-- Unfolding: a failing pair of block fetches in `chain-statistics` leaves
the running totals untouched and the loop proceeds to the next iteration. -/
theorem statsStep_fail (c : Chain) (hd i : Nat) (acc : Nat × List String)
    (h : c.getBlockInfo (hd - i) = none ∨ c.getBlock (hd - i) = none) :
    statsStep c hd i acc = acc := by
  rcases h with h | h
  · rw [statsStep, h]
  · rw [statsStep]
    cases hi : c.getBlockInfo (hd - i) with
    | none => rfl
    | some u => rw [h]

/-- C8: in both aggregator variants a single failing fetch never aborts the
call.  In the history walk a failing block fetch moves on to the next older
block with state intact; a successful fetch continues with whatever the
transaction loop accumulated, and that loop only appends — so records
gathered before a mid-block receipt-fetch failure are kept; in the statistics
loop a failing fetch leaves the running totals untouched and iteration
continues. -/
theorem per_block_failure_non_aborting :
    (∀ (c : Chain) (fmt : String) (limit rem cur : Nat) (st : HistState),
      st.recs.length < limit → c.getBlock cur = none →
      walkAux c fmt limit (rem + 1) cur st =
        walkAux c fmt limit rem (cur - 1)
          ⟨st.recs, st.processed, st.fetched ++ [cur]⟩) ∧
    (∀ (c : Chain) (fmt : String) (limit rem cur : Nat) (st : HistState) (blk : Block),
      st.recs.length < limit → c.getBlock cur = some blk →
      walkAux c fmt limit (rem + 1) cur st =
        walkAux c fmt limit rem (cur - 1)
          ⟨(processTxs c fmt limit blk blk.transactions (st.recs, st.processed)).1,
           (processTxs c fmt limit blk blk.transactions (st.recs, st.processed)).2,
           st.fetched ++ [cur]⟩) ∧
    (∀ (c : Chain) (fmt : String) (limit : Nat) (blk : Block) (txs : List Tx)
      (recs : List ActivityRecord) (proc : List String),
      ∃ t, (processTxs c fmt limit blk txs (recs, proc)).1 = recs ++ t) ∧
    (∀ (c : Chain) (hd i : Nat) (acc : Nat × List String),
      c.getBlockInfo (hd - i) = none ∨ c.getBlock (hd - i) = none →
      statsStep c hd i acc = acc) :=
  ⟨fun c fmt limit rem cur st hg hb => walkAux_fail_step c fmt limit rem cur st hg hb,
   fun c fmt limit rem cur st blk hg hb => walkAux_fetch_step c fmt limit rem cur st blk hg hb,
   fun c fmt limit blk txs recs proc => processTxs_preserves c fmt limit blk txs recs proc,
   fun c hd i acc h => statsStep_fail c hd i acc h⟩

set_option maxRecDepth 16384 in
/-- Witness for C8: on the sample chain, block 50 fails to fetch and block 100
succeeds; `statsStep` skips the failing block 50. -/
theorem per_block_failure_non_aborting_witness :
    (walkAux sampleChain "0xsender" 5 (2 + 1) 50 ⟨[], [], []⟩ =
      walkAux sampleChain "0xsender" 5 2 49 ⟨[], [], [50]⟩) ∧
    (walkAux sampleChain "0xsender" 5 (2 + 1) 100 ⟨[], [], []⟩ =
      walkAux sampleChain "0xsender" 5 2 99
        ⟨(processTxs sampleChain "0xsender" 5 (sampleBlock 100)
            (sampleBlock 100).transactions ([], [])).1,
         (processTxs sampleChain "0xsender" 5 (sampleBlock 100)
            (sampleBlock 100).transactions ([], [])).2,
         [100]⟩) ∧
    (∃ t, (processTxs sampleChain "0xsender" 5 (sampleBlock 100)
      (sampleBlock 100).transactions ([], [])).1 = [] ++ t) ∧
    (statsStep sampleChain 100 50 (0, []) = (0, [])) :=
  ⟨per_block_failure_non_aborting.1 sampleChain "0xsender" 5 2 50 ⟨[], [], []⟩
      (by decide) (by decide),
   per_block_failure_non_aborting.2.1 sampleChain "0xsender" 5 2 100 ⟨[], [], []⟩
      (sampleBlock 100) (by decide) (by decide),
   per_block_failure_non_aborting.2.2.1 sampleChain "0xsender" 5 (sampleBlock 100)
      (sampleBlock 100).transactions [] [],
   per_block_failure_non_aborting.2.2.2 sampleChain 100 50 (0, []) (Or.inl (by decide))⟩

/-- Unfolding: a successful pair of block fetches adds the block's transaction
count and addresses to the running totals. -/
theorem statsStep_some (c : Chain) (hd i : Nat) (acc : Nat × List String) (blk : Block)
    (hi : c.getBlockInfo (hd - i) = some ()) (hb : c.getBlock (hd - i) = some blk) :
    statsStep c hd i acc =
      (acc.1 + blk.transactions.length, blk.transactions.foldl addTxAddrs acc.2) := by
  rw [statsStep, hi, hb]

/-- Unfolding of a successful `chain-statistics` call. -/
theorem statsModel_eq (c : Chain) (blocks hd : Nat) (hhd : c.getHead = some hd) :
    statsModel c blocks = .ok
      ⟨c.chainId, hd, c.gasPrice,
        ((List.range (min blocks 10)).foldl
          (fun acc i => statsStep c hd i acc) (0, [])).1,
        ((List.range (min blocks 10)).foldl
          (fun acc i => statsStep c hd i acc) (0, [])).2.length,
        ((((List.range (min blocks 10)).foldl
          (fun acc i => statsStep c hd i acc) (0, [])).1 : ℚ)) / (blocks : ℚ)⟩ := by
  rw [statsModel, hhd]

/-- C7: the reported average is `totalTransactions / blocks` with the
*requested* block count as divisor; in particular for `blocks = 5` with all
five head blocks fetchable the total is the sum of their transaction counts
and the average is exactly that total divided by 5 — the divisor is neither
the number of successfully processed blocks nor the capped `min(blocks, 10)`
iteration count. -/
theorem stats_average_divisor_requested :
    (∀ (c : Chain) (hd : Nat) (B : Nat → Block),
      c.getHead = some hd →
      (∀ i, i < 5 → c.getBlockInfo (hd - i) = some () ∧ c.getBlock (hd - i) = some (B i)) →
      ∃ rep, statsModel c 5 = .ok rep ∧
        rep.totalTransactions =
          ((List.range 5).map (fun i => (B i).transactions.length)).sum ∧
        rep.average = (rep.totalTransactions : ℚ) / 5) ∧
    (∀ (c : Chain) (blocks : Nat) (rep : StatsReport),
      statsModel c blocks = .ok rep →
      rep.average = (rep.totalTransactions : ℚ) / (blocks : ℚ)) := by
  constructor
  · intro c hd B hhd hB
    rw [statsModel_eq c 5 hd hhd]
    refine ⟨_, rfl, ?_, rfl⟩
    have hr : List.range (min 5 10) = [0, 1, 2, 3, 4] := rfl
    rw [hr]
    simp only [List.foldl_cons, List.foldl_nil]
    rw [statsStep_some c hd 0 _ (B 0) (hB 0 (by norm_num)).1 (hB 0 (by norm_num)).2]
    rw [statsStep_some c hd 1 _ (B 1) (hB 1 (by norm_num)).1 (hB 1 (by norm_num)).2]
    rw [statsStep_some c hd 2 _ (B 2) (hB 2 (by norm_num)).1 (hB 2 (by norm_num)).2]
    rw [statsStep_some c hd 3 _ (B 3) (hB 3 (by norm_num)).1 (hB 3 (by norm_num)).2]
    rw [statsStep_some c hd 4 _ (B 4) (hB 4 (by norm_num)).1 (hB 4 (by norm_num)).2]
    have hm : (List.range 5).map (fun i => (B i).transactions.length) =
      [(B 0).transactions.length, (B 1).transactions.length, (B 2).transactions.length,
        (B 3).transactions.length, (B 4).transactions.length] := rfl
    rw [hm]
    simp only [List.sum_cons, List.sum_nil]
    omega
  · intro c blocks rep h
    cases hh : c.getHead with
    | none => rw [statsModel, hh] at h; cases h
    | some hd =>
      rw [statsModel_eq c blocks hd hh] at h
      injection h with h
      rw [← h]

set_option maxRecDepth 16384 in
/-- Witness for C7: the sample chain, whose five head blocks carry 5, 4, 3, 2
and 1 transactions, so the reported average is exactly 15 / 5 = 3. -/
theorem stats_average_divisor_requested_witness :
    (sampleChain.getHead = some 100 ∧
      (∀ i, i < 5 → sampleChain.getBlockInfo (100 - i) = some () ∧
        sampleChain.getBlock (100 - i) = some (sampleBlock (100 - i)))) ∧
    (∃ rep, statsModel sampleChain 5 = .ok rep ∧
      rep.totalTransactions =
        ((List.range 5).map (fun i => (sampleBlock (100 - i)).transactions.length)).sum ∧
      rep.average = (rep.totalTransactions : ℚ) / 5) :=
  ⟨⟨rfl, by decide⟩,
    stats_average_divisor_requested.1 sampleChain 100 (fun i => sampleBlock (100 - i))
      rfl (by decide)⟩

/-- C10: the Timestamp line of a successful `transaction-details` report is
the server's wall clock at formatting time (`new Date().toISOString()`), not
any chain timestamp — the handler never fetches the containing block.  Two
calls for the same hash at different times therefore report the two different
clock values while every chain-derived field coincides. -/
theorem txdetails_timestamp_wall_clock
    (c : Chain) (h : String) (t1 t2 : String) (r1 r2 : TdReport)
    (h1 : txDetailsModel c h t1 = .ok r1) (h2 : txDetailsModel c h t2 = .ok r2) :
    r1.timestamp = t1 ∧ r2.timestamp = t2 ∧
    (t1 ≠ t2 → r1.timestamp ≠ r2.timestamp) ∧
    r1.status = r2.status ∧ r1.blockNumber = r2.blockNumber ∧
    r1.sender = r2.sender ∧ r1.recipient = r2.recipient ∧
    r1.value = r2.value ∧ r1.gasUsed = r2.gasUsed ∧ r1.gasPrice = r2.gasPrice := by
  rw [txDetailsModel] at h1 h2
  cases htx : c.getTransaction h with
  | none => rw [htx] at h1; cases h1
  | some tx =>
    rw [htx] at h1 h2
    cases hrc : c.getReceipt h with
    | none => rw [hrc] at h1; cases h1
    | some receipt =>
      rw [hrc] at h1 h2
      injection h1 with h1
      injection h2 with h2
      subst h1
      subst h2
      refine ⟨rfl, rfl, ?_, rfl, rfl, rfl, rfl, rfl, rfl, rfl⟩
      intro hne
      exact hne

/-- Witness for C10: the sample chain's transaction `0xtx`, queried at two
different wall-clock instants. -/
theorem txdetails_timestamp_wall_clock_witness :
    (∃ r1 r2, txDetailsModel sampleChain "0xtx" "2026-10-11T00:00:00.000Z" = .ok r1 ∧
      txDetailsModel sampleChain "0xtx" "2026-10-12T09:30:00.000Z" = .ok r2 ∧
      r1.timestamp = "2026-10-11T00:00:00.000Z" ∧
      r2.timestamp = "2026-10-12T09:30:00.000Z" ∧
      r1.timestamp ≠ r2.timestamp ∧
      r1.status = r2.status ∧ r1.blockNumber = r2.blockNumber ∧
      r1.sender = r2.sender ∧ r1.recipient = r2.recipient ∧
      r1.value = r2.value ∧ r1.gasUsed = r2.gasUsed ∧ r1.gasPrice = r2.gasPrice) := by
  refine ⟨_, _, rfl, rfl, ?_⟩
  have hw := txdetails_timestamp_wall_clock sampleChain "0xtx"
    "2026-10-11T00:00:00.000Z" "2026-10-12T09:30:00.000Z" _ _ rfl rfl
  exact ⟨hw.1, hw.2.1, hw.2.2.1 (by decide), hw.2.2.2.1, hw.2.2.2.2.1,
    hw.2.2.2.2.2.1, hw.2.2.2.2.2.2.1, hw.2.2.2.2.2.2.2.1,
    hw.2.2.2.2.2.2.2.2.1, hw.2.2.2.2.2.2.2.2.2⟩

end MonadMcp
